import Mathlib

/-!
Verification development for the `stressful-object-storage` load-generation
harness (sources `src/args.rs`, `src/session.rs`, `src/main.rs`).

The Rust code is shallowly embedded: pure control flow becomes Lean
functions, `usize` arithmetic that can wrap is modelled with explicit
`% 2 ^ 64`, and operations that can panic (wrapping subtraction followed by
an out-of-range slice, `%` by zero) or diverge return `Option` with `none`
for the panicking / diverging outcome.  Network calls are modelled by the
trace of storage operations they would issue.
-/

namespace Sos

/-! ## `src/args.rs` -/

/-- Enum `Mode` from args.rs: `enum Mode { Read, #[default] Write }`. -/
inductive Mode
  | Read
  | Write
deriving DecidableEq

/-- Struct `LoadTesterArgs` from args.rs.  `Byte` values are modelled by their
`as_u64` value as a `Nat`; `count: Option<Byte>` becomes `Option Nat`.
No field carries any validation: clap parses any unsigned value, including
`step = 0`. -/
structure LoadTesterArgs where
  count : Option Nat
  multipart_threshold : Nat
  size : Nat
  step : Nat
deriving DecidableEq

/-- Constant `LoadTesterArgs::default_multipart_threshold` (8 MB). -/
def LoadTesterArgs.default_multipart_threshold : Nat := 8000000

/-- Constant `LoadTesterArgs::default_size` (4 MB). -/
def LoadTesterArgs.default_size : Nat := 4000000

/-- Constant `LoadTesterArgs::default_step` (64). -/
def LoadTesterArgs.default_step : Nat := 64

/-- Constant `LoadTesterArgs::minimal_multipart_threshold` (5 MB), the fixed
minimum multipart part size. -/
def LoadTesterArgs.minimal_multipart_threshold : Nat := 5000000

/-! ## Key generator (`get_s3_path`, session.rs line 435)

`format!("/sample/{index:06}.bin")`: the decimal representation of
`index`, left-padded with `'0'` to at least 6 characters, between the
fixed prefix `/sample/` and suffix `.bin`. -/

/-- The decimal digits of `n`, most significant first (`[0]` for `0`),
exactly the digit sequence Rust's `{index}` formatting emits. -/
def natDecDigits (n : Nat) : List Nat :=
  if _h : n < 10 then [n] else natDecDigits (n / 10) ++ [n % 10]
decreasing_by exact Nat.div_lt_self (by omega) (by omega)

/-- Left-pad a digit list with zeros to width 6, as `{:06}` does. -/
def pad6 (l : List Nat) : List Nat := List.replicate (6 - l.length) 0 ++ l

/-- A decimal digit as a character (`0` ↦ `'0'`, …). -/
def decChar (d : Nat) : Char := Char.ofNat (48 + d)

/-- Function `get_s3_path` from session.rs: `format!("/sample/{index:06}.bin")`. -/
def get_s3_path (index : Nat) : String :=
  String.mk ("/sample/".data ++ (pad6 (natDecDigits index)).map decChar ++ ".bin".data)

/-- Verification helper (not from the source): the number a digit list
denotes in base 10, used as a left inverse to digit formatting. -/
def decValueN (l : List Nat) : Nat := l.foldl (fun v d => v * 10 + d) 0

/-! ## Multipart chunker (`SessionTask::write`, session.rs lines 341-359)

```rust
let mut pos = 0;
let len = data.len();
while pos < len {
    let pos_next = pos + multipart_threshold;
    let remaining = len - pos_next;          // usize subtraction
    let pos_next = if remaining >= multipart_minimal { pos_next } else { len };
    let chunk = &data[pos..pos_next];        // panics if pos_next > len
    chunks.push(chunk);
    pos = pos_next;
}
```

`len - pos_next` is `usize` subtraction: it panics in a debug build when
`pos_next > len` and wraps modulo `2^64` in a release build, in which case
the huge wrapped `remaining` passes the `>= multipart_minimal` test and the
slice `&data[pos..pos_next]` with `pos_next > len` panics instead.  Either
way the iteration panics; we model the release-build arithmetic (wrapping
subtraction) and return `none` at the out-of-range slice.  Chunks are
represented by their half-open index ranges `(start, stop)` into `data`. -/

/-- Value `2^64`, the modulus of 64-bit `usize` arithmetic. -/
def U64 : Nat := 2 ^ 64

/-- Wrapping 64-bit subtraction `a - b` (for `a, b < 2^64`). -/
def wrapSub (a b : Nat) : Nat := (a + U64 - b) % U64

/-- One fuel-indexed unfolding of the chunking `while` loop.  `none` models
a panic (slice out of range) or, on fuel exhaustion, divergence of the
source loop (which makes no progress when `multipart_threshold = 0`). -/
def chunksGo : Nat → Nat → Nat → Nat → Nat → List (Nat × Nat) → Option (List (Nat × Nat))
  | 0, _, _, _, _, _ => none
  | fuel + 1, pos, len, threshold, minimal, acc =>
    if pos < len then
      let posNext := pos + threshold
      let remaining := wrapSub len posNext
      let posNext' := if remaining ≥ minimal then posNext else len
      if posNext' ≤ len then
        chunksGo fuel posNext' len threshold minimal (acc ++ [(pos, posNext')])
      else
        none
    else
      some acc

/-- The chunk ranges the multipart writer produces for a payload of length
`len`.  `len + 1` fuel is enough for every terminating run of the source
loop, whose position advances by at least one per iteration whenever
`threshold ≥ 1`. -/
def chunks (len threshold minimal : Nat) : Option (List (Nat × Nat)) :=
  chunksGo (len + 1) 0 len threshold minimal []

/-! ## Object operation executor (`SessionTask::read` / `write` / `init_read`)

The storage calls a run would issue are recorded as a trace.  Payload
slices `&buf[index..index+size]` are represented by their index ranges
(the control flow of the source never inspects buffer contents), so a
buffer is represented by its length alone.  The shared `AtomicU64`
counter is represented by the number of `fetch_add(1, _)` calls an
operation performs, its `counterDelta`. -/

/-- A storage-backend call, as issued by the executor. -/
inductive S3Op
  | putSimple (path : String) (range : Nat × Nat)
  | initiateMultipart (path : String)
  | putPart (path : String) (partNumber : Nat) (range : Nat × Nat)
  | completeMultipart (path : String) (parts : Nat)
  | getObject (path : String)
deriving DecidableEq

/-- Result of a successful executor call: the storage calls issued, and
how often the shared completed-operation counter was incremented. -/
structure TaskResult where
  ops : List S3Op
  counterDelta : Nat
deriving DecidableEq

/-- session.rs line 330: `let use_multipart = size > multipart_threshold;`. -/
def useMultipart (size threshold : Nat) : Bool := threshold < size

/-- Function `SessionTask::write` (session.rs lines 326-390).  `bufLen` is the
length of the worker's buffer (`size + step` at the allocation site);
`none` models a panic: the slice `&buf[index..index+size]` out of range,
or the chunking loop's panic/divergence (see `chunks`), or an overflowing
`(part_number + 1).try_into::<u32>()`. -/
def write (args : LoadTesterArgs) (index : Nat) (bufLen : Nat) (addCounter : Bool) :
    Option TaskResult :=
  let multipartMinimal := LoadTesterArgs.minimal_multipart_threshold
  let multipartThreshold := args.multipart_threshold
  let size := args.size
  let path := get_s3_path index
  if index + size ≤ bufLen then
    if useMultipart size multipartThreshold then
      (chunks size multipartThreshold multipartMinimal).bind fun cs =>
        if cs.length < 2 ^ 32 then
          some { ops := S3Op.initiateMultipart path ::
                   ((cs.enum.map fun pc => S3Op.putPart path (pc.1 + 1) pc.2) ++
                     [S3Op.completeMultipart path cs.length]),
                 counterDelta := if addCounter then 1 else 0 }
        else none
    else
      some { ops := [S3Op.putSimple path (0, size)],
             counterDelta := if addCounter then 1 else 0 }
  else none

/-- Function `SessionTask::read` (session.rs lines 311-324), success path: one
`get_object` and, when `add_counter`, one counter increment. -/
def read (_args : LoadTesterArgs) (index : Nat) (addCounter : Bool) : TaskResult :=
  { ops := [S3Op.getObject (get_s3_path index)],
    counterDelta := if addCounter then 1 else 0 }

/-- Sequencing of two executor results. -/
def TaskResult.append (r r' : TaskResult) : TaskResult :=
  { ops := r.ops ++ r'.ops, counterDelta := r.counterDelta + r'.counterDelta }

/-- Function `SessionTask::init_read` (session.rs lines 298-305): one write per
index in `0..step`, each with `add_counter = false`. -/
def initRead (args : LoadTesterArgs) (bufLen : Nat) : Option TaskResult :=
  (List.range args.step).foldl
    (fun acc index => acc.bind fun r =>
      (write args index bufLen false).map r.append)
    (some { ops := [], counterDelta := 0 })

/-! ## Worker loop (`SessionTask::try_loop_forever`, session.rs lines 263-296)

```rust
let mut index = *id;
loop {
    ...termination checks...
    let index = { let ret = index; index += *total_tasks; ret % step };
    match mode { Mode::Read => self.read(index, true), Mode::Write => self.write(index, &buf, true) }
}
```

The loop is modelled for runs that terminate by reaching `count` (no
cancellation signal, no `duration` expiry): the cursor values a worker
visits, then the fold of the executor over them. -/

/-- Rust's panicking `%`: `none` when the divisor is zero. -/
def natModChecked (a b : Nat) : Option Nat :=
  if b = 0 then none else some (a % b)

/-- Fuel-indexed unfolding of the worker loop's cursor sequence.  With
`stride ≥ 1` every iteration advances the cursor by at least one, so
`count - cursor` fuel always suffices; with `stride = 0` the source loop
diverges and the fuel is an artifact (no spawned worker has stride 0:
`stride = threads_max ≥ id + 1 ≥ 1`). -/
def workerCursorsGo : Nat → Nat → Nat → Nat → List Nat
  | 0, _, _, _ => []
  | fuel + 1, cursor, stride, count =>
    if count ≤ cursor then []
    else cursor :: workerCursorsGo fuel (cursor + stride) stride count

/-- The cursor values worker `id` visits: `cursor, cursor + stride, …`
strictly below `count`. -/
def workerCursors (cursor stride count : Nat) : List Nat :=
  workerCursorsGo (count - cursor) cursor stride count

/-- One worker's whole Write-mode run (barrier prologue aside): the fold
of `ret % step` (panicking `%`) and `write(_, buf, true)` over its cursor
values. -/
def taskRunWrite (args : LoadTesterArgs) (bufLen id stride count : Nat) :
    Option TaskResult :=
  (workerCursors id stride count).foldl
    (fun acc cursor => acc.bind fun r =>
      (natModChecked cursor args.step).bind fun index =>
        (write args index bufLen true).map r.append)
    (some { ops := [], counterDelta := 0 })

/-- Total number of shared-counter increments over the whole pool of
`threads` Write-mode workers (`none` if any worker panics/fails). -/
def poolCounterTotal (args : LoadTesterArgs) (bufLen threads count : Nat) : Option Nat :=
  (List.range threads).foldl
    (fun acc id => acc.bind fun n =>
      (taskRunWrite args bufLen id threads count).map fun r => n + r.counterDelta)
    (some 0)

/-! ## Session coordinator (`ObjectStorageSession::try_loop_forever`,
session.rs lines 95-190)

`task_handler` is `FuturesUnordered` + `TryStreamExt::try_collect`: worker
results are observed in completion order and collection short-circuits at
the first `Err`, dropping (detaching, not joining) the remaining
`JoinHandle`s.  `tryCollectJoin` models it over the completion-order list
of worker results, also returning how many workers were actually joined. -/

/-- Model of `try_collect` over the completion-order worker results: number of
results consumed (workers joined) and the collected outcome. -/
def tryCollectJoin : List (Except String Unit) → Nat × Except String Unit
  | [] => (0, Except.ok ())
  | Except.error e :: _ => (1, Except.error e)
  | Except.ok _ :: rs =>
    let p := tryCollectJoin rs
    (p.1 + 1, p.2)

/-- Outcome of one coordinator run. -/
structure CoordOut where
  joined : Nat
  cleanupRuns : Nat
  result : Except String Unit

/-- The coordinator's control flow around `task_handler` and `cleanup`
(session.rs lines 131-189).  With `no_progress_bar` the coordinator is
just `task_handler.await` — no cleanup.  Otherwise the progress loop ends
(on count reached or signal), then `task_handler.await?` — an `Err`
returns early, before `cleanup` — and only then `cleanup(bucket).await`
runs, whose own outcome `cleanupResult` becomes the run's result. -/
def coordinate (noProgressBar : Bool) (workerResults : List (Except String Unit))
    (cleanupResult : Except String Unit) : CoordOut :=
  let p := tryCollectJoin workerResults
  if noProgressBar then
    { joined := p.1, cleanupRuns := 0, result := p.2 }
  else
    match p.2 with
    | Except.error e => { joined := p.1, cleanupRuns := 0, result := Except.error e }
    | Except.ok _ => { joined := p.1, cleanupRuns := 1, result := cleanupResult }

/-! ## Initialization barrier (`SessionTask::try_loop_forever`,
session.rs lines 242-261)

```rust
if state.compare_exchange(STATE_PENDING, STATE_INIT, SeqCst, SeqCst).is_ok() {
    match mode { Mode::Read => self.init_read(&buf), Mode::Write => self.init_write() }?;
    state.store(STATE_READE, SeqCst);
} else {
    while state.load(SeqCst) != STATE_READE { sleep(10ms) }
}
```

The concurrent execution of `n` workers against the shared `AtomicU8` is
modelled as an interleaving semantics: a schedule is a list of worker ids,
and each scheduled worker performs one atomic step of its program (the
compare-exchange, one initialization write, the `Ready` store, one poll of
the barrier, or one operation of its main loop).  Quantifying over all
schedules quantifies over all interleavings. -/

/-- Constant `SessionTask::STATE_PENDING`. -/
def STATE_PENDING : Nat := 0

/-- Constant `SessionTask::STATE_INIT`. -/
def STATE_INIT : Nat := 1

/-- Constant `SessionTask::STATE_READE`. -/
def STATE_READE : Nat := 2

/-- Where a worker is in its prologue/loop: not yet at the
compare-exchange; winner of it having performed `k` initialization
writes; loser polling the barrier; or in its operation loop (`run true`
for the winner, `run false` for a worker that waited). -/
inductive WPhase
  | start
  | ini (k : Nat)
  | wait
  | run (won : Bool)
deriving DecidableEq

/-- An observable event of the interleaved run: an initialization write
of key index `idx`, or a main-loop read/write by worker `wid`. -/
inductive Ev
  | initWrite (idx : Nat)
  | opRead (wid : Nat)
  | opWrite (wid : Nat)
deriving DecidableEq

/-- Is the event an initialization write? -/
def isInitEv : Ev → Bool
  | Ev.initWrite _ => true
  | _ => false

/-- Is the event a main-loop read attempt? -/
def isReadEv : Ev → Bool
  | Ev.opRead _ => true
  | _ => false

/-- Does the phase belong to the initializing worker (it won the
compare-exchange)? -/
def isWinner : WPhase → Bool
  | WPhase.ini _ => true
  | WPhase.run true => true
  | _ => false

/-- Is the worker in its operation loop? -/
def isRunPh : WPhase → Bool
  | WPhase.run _ => true
  | _ => false

/-- The event worker `wid` emits on one iteration of its operation
loop: a read in Read mode, a write in Write mode. -/
def loopEv (mode : Mode) (wid : Nat) : Ev :=
  match mode with
  | Mode.Read => Ev.opRead wid
  | Mode.Write => Ev.opWrite wid

/-- Shared-and-local state of the interleaved system: the `AtomicU8`
barrier value, each worker's phase, and the global event trace. -/
structure BSys (n : Nat) where
  barrier : Nat
  phases : Fin n → WPhase
  trace : List Ev

/-- Pointwise update of one worker's phase. -/
def updPh {n : Nat} (phases : Fin n → WPhase) (w : Fin n) (p : WPhase) :
    Fin n → WPhase :=
  fun v => if v = w then p else phases v

/-- Number of initialization writes the winner performs:
`step` in Read mode (`init_read`), none in Write mode (`init_write` is a
no-op). -/
def initSteps (mode : Mode) (step : Nat) : Nat :=
  match mode with
  | Mode.Read => step
  | Mode.Write => 0

/-- One atomic step of worker `w`. -/
def stepWorker (mode : Mode) (step : Nat) {n : Nat} (st : BSys n) (w : Fin n) :
    BSys n :=
  match st.phases w with
  | WPhase.start =>
    if st.barrier = STATE_PENDING then
      { st with barrier := STATE_INIT, phases := updPh st.phases w (WPhase.ini 0) }
    else
      { st with phases := updPh st.phases w WPhase.wait }
  | WPhase.ini k =>
    if k < initSteps mode step then
      { st with phases := updPh st.phases w (WPhase.ini (k + 1)),
                trace := st.trace ++ [Ev.initWrite k] }
    else
      { st with barrier := STATE_READE, phases := updPh st.phases w (WPhase.run true) }
  | WPhase.wait =>
    if st.barrier = STATE_READE then
      { st with phases := updPh st.phases w (WPhase.run false) }
    else
      st
  | WPhase.run _ =>
    { st with trace := st.trace ++ [loopEv mode w.val] }

/-- All workers `Pending`/`start`, empty trace. -/
def initSys (n : Nat) : BSys n :=
  { barrier := STATE_PENDING, phases := fun _ => WPhase.start, trace := [] }

/-- Run the system under a schedule (an arbitrary interleaving). -/
def execSched (mode : Mode) (step : Nat) {n : Nat} (sched : List (Fin n)) : BSys n :=
  sched.foldl (stepWorker mode step) (initSys n)

/-- Invariant of the barrier system, by barrier value: either still
`Pending` (nobody has reached the compare-exchange, empty trace), or
`Initializing` (a unique winner `k` writes into its initialization, the
trace being exactly those writes in order), or `Ready` (the winner in its
operation loop, the trace being all initialization writes followed only
by main-loop operations). -/
def Inv (mode : Mode) (step : Nat) {n : Nat} (st : BSys n) : Prop :=
  (st.barrier = STATE_PENDING ∧ (∀ w, st.phases w = WPhase.start) ∧ st.trace = [])
  ∨ (st.barrier = STATE_INIT ∧ ∃ w0 : Fin n, ∃ k, k ≤ initSteps mode step ∧
      st.phases w0 = WPhase.ini k ∧
      (∀ w, w ≠ w0 → st.phases w = WPhase.start ∨ st.phases w = WPhase.wait) ∧
      st.trace = (List.range k).map Ev.initWrite)
  ∨ (st.barrier = STATE_READE ∧ ∃ w0 : Fin n,
      st.phases w0 = WPhase.run true ∧
      (∀ w, w ≠ w0 → st.phases w = WPhase.start ∨ st.phases w = WPhase.wait ∨
        st.phases w = WPhase.run false) ∧
      ∃ rest, st.trace = (List.range (initSteps mode step)).map Ev.initWrite ++ rest ∧
        ∀ e ∈ rest, isInitEv e = false)

/-! # Theorems

## Key generator (claim C8) -/

/-- Every digit emitted by decimal formatting is at most 9. -/
theorem natDecDigits_le_nine : ∀ n, ∀ d ∈ natDecDigits n, d ≤ 9 := by
  intro n
  induction n using Nat.strong_induction_on with
  | _ n ih =>
    intro d hd
    by_cases h : n < 10
    · rw [natDecDigits, dif_pos h, List.mem_singleton] at hd
      omega
    · rw [natDecDigits, dif_neg h, List.mem_append, List.mem_singleton] at hd
      rcases hd with hd | hd
      · exact ih (n / 10) (Nat.div_lt_self (by omega) (by omega)) d hd
      · omega

/-- Folding base-10 accumulation over the digits of `n` recovers `n`. -/
theorem foldl_natDecDigits : ∀ n v, (natDecDigits n).foldl (fun a d => a * 10 + d) v
    = v * 10 ^ (natDecDigits n).length + n := by
  intro n
  induction n using Nat.strong_induction_on with
  | _ n ih =>
    intro v
    by_cases h : n < 10
    · rw [natDecDigits, dif_pos h]
      simp only [List.foldl, List.length_singleton, pow_one]
    · rw [natDecDigits, dif_neg h, List.foldl_append,
        ih (n / 10) (Nat.div_lt_self (by omega) (by omega)) v]
      simp only [List.foldl, List.length_append, List.length_singleton]
      rw [pow_succ, ← mul_assoc]
      generalize (10 : Nat) ^ (natDecDigits (n / 10)).length = P
      generalize v * P = Q
      omega

/-- Leading zero digits contribute nothing to the base-10 value. -/
theorem foldl_replicate_zero : ∀ k, (List.replicate k 0).foldl (fun a d => a * 10 + d) 0 = 0 := by
  intro k
  induction k with
  | zero => rfl
  | succ k ih =>
    rw [List.replicate_succ]
    simpa only [List.foldl] using ih

/-- Reading back the zero-padded digit string of `n` yields `n`:
`decValueN` is a left inverse of `pad6 ∘ natDecDigits`. -/
theorem decValueN_pad6 (n : Nat) : decValueN (pad6 (natDecDigits n)) = n := by
  unfold decValueN pad6
  rw [List.foldl_append, foldl_replicate_zero, foldl_natDecDigits]
  simp

/-- On digits `≤ 9`, the digit-to-character map is injective. -/
theorem decChar_inj_le_nine : ∀ d, d ≤ 9 → ∀ e, e ≤ 9 → decChar d = decChar e → d = e := by
  decide

/-- Character-mapping digit lists is injective on digit lists. -/
theorem map_decChar_inj : ∀ (a b : List Nat), (∀ d ∈ a, d ≤ 9) → (∀ d ∈ b, d ≤ 9) →
    a.map decChar = b.map decChar → a = b := by
  intro a
  induction a with
  | nil =>
    intro b _ _ h
    cases b with
    | nil => rfl
    | cons y ys => simp at h
  | cons x xs ih =>
    intro b ha hb h
    cases b with
    | nil => simp at h
    | cons y ys =>
      simp only [List.map_cons, List.cons.injEq] at h
      have hx : x = y := decChar_inj_le_nine x (ha x (List.mem_cons_self x xs)) y
        (hb y (List.mem_cons_self y ys)) h.1
      have hrest := ih ys (fun d hd => ha d (List.mem_cons_of_mem x hd))
        (fun d hd => hb d (List.mem_cons_of_mem y hd)) h.2
      rw [hx, hrest]

/-- All entries of the padded digit list are digits. -/
theorem pad6_le_nine (n : Nat) : ∀ d ∈ pad6 (natDecDigits n), d ≤ 9 := by
  intro d hd
  rw [pad6, List.mem_append] at hd
  rcases hd with hd | hd
  · have := List.eq_of_mem_replicate hd
    omega
  · exact natDecDigits_le_nine n d hd

/-- The key generator is injective on all of `Nat`. -/
theorem get_s3_path_inj : ∀ i j : Nat, get_s3_path i = get_s3_path j → i = j := by
  intro i j h
  unfold get_s3_path at h
  injection h with hdata
  have h3 := List.append_cancel_right hdata
  have h4 := List.append_cancel_left h3
  have h5 := map_decChar_inj _ _ (pad6_le_nine i) (pad6_le_nine j) h4
  have h6 := congrArg decValueN h5
  rwa [decValueN_pad6, decValueN_pad6] at h6

/-- C8: the key generator is a deterministic pure function from an index
to a path under the `/sample/` prefix: `key i = key i` for every `i`, the
path carries the fixed 8-character `/sample/` prefix, and distinct
indices in `[0, step)` map to distinct keys. -/
theorem C8_key_generator :
    ∀ (step i j : Nat), i < step → j < step → i ≠ j →
      get_s3_path i = get_s3_path i ∧
      (get_s3_path i).data.take 8 = "/sample/".data ∧
      get_s3_path i ≠ get_s3_path j := by
  intro step i j _ _ hij
  refine ⟨rfl, ?_, fun he => hij (get_s3_path_inj i j he)⟩
  show ("/sample/".data ++ (pad6 (natDecDigits i)).map decChar ++ ".bin".data).take 8
      = "/sample/".data
  rw [List.append_assoc]
  have h8 : (8 : Nat) = ("/sample/".data).length := rfl
  rw [h8, List.take_left]

/-- Witness for C8 at `step = 64`, `i = 0`, `j = 1`. -/
theorem C8_key_generator_witness : get_s3_path 0 ≠ get_s3_path 1 :=
  (C8_key_generator 64 0 1 (by decide) (by decide) (by decide)).2.2

/-! ## Multipart chunker (claim C1) -/

/-- C1 (code bug): at payload length 13,000,000 with the default
`multipart_threshold` of 8,000,000 (and the fixed 5,000,000 minimum part
size) the chunking loop panics instead of partitioning the payload.
After cutting the first part at 8,000,000 the unsigned computation
`remaining = len - pos_next = 13000000 - 16000000` underflows, the
wrapped value passes the `remaining >= multipart_minimal` test, and the
slice `&data[8000000..16000000]` is out of range — modelled here by
`chunks` (and hence the whole multipart `write`) returning `none`. -/
theorem C1_chunker_panics :
    chunks 13000000 8000000 5000000 = none ∧
    write { count := none, multipart_threshold := 8000000, size := 13000000, step := 64 }
      0 13000064 true = none :=
  ⟨rfl, rfl⟩

/-! ## Object operation executor (claims C7, C6) -/

/-- With the payload at or below the threshold, `write` is the single
simple put. -/
theorem write_simple (args : LoadTesterArgs) (index bl : Nat) (a : Bool)
    (hsize : args.size ≤ args.multipart_threshold) (hbound : index + args.size ≤ bl) :
    write args index bl a
      = some { ops := [S3Op.putSimple (get_s3_path index) (0, args.size)],
               counterDelta := if a then 1 else 0 } := by
  have hbm : useMultipart args.size args.multipart_threshold = false :=
    decide_eq_false (by omega)
  simp only [write, hbm]
  rw [if_pos hbound]
  simp

/-- With the payload strictly above the threshold, `write` takes the
multipart branch over the chunker's ranges. -/
theorem write_multipart (args : LoadTesterArgs) (index bl : Nat) (a : Bool)
    (hsize : args.multipart_threshold < args.size) (hbound : index + args.size ≤ bl) :
    write args index bl a
      = (chunks args.size args.multipart_threshold
          LoadTesterArgs.minimal_multipart_threshold).bind fun cs =>
        if cs.length < 2 ^ 32 then
          some { ops := S3Op.initiateMultipart (get_s3_path index) ::
                   ((cs.enum.map fun pc =>
                      S3Op.putPart (get_s3_path index) (pc.1 + 1) pc.2) ++
                     [S3Op.completeMultipart (get_s3_path index) cs.length]),
                 counterDelta := if a then 1 else 0 }
        else none := by
  have hbm : useMultipart args.size args.multipart_threshold = true :=
    decide_eq_true hsize
  simp only [write, hbm]
  rw [if_pos hbound]
  simp

/-- A `write` that does not panic/fail refuses to touch `bl` out of
bounds. -/
theorem write_bound (args : LoadTesterArgs) (index bl : Nat) (a : Bool) (r : TaskResult)
    (h : write args index bl a = some r) : index + args.size ≤ bl := by
  by_contra hb
  simp only [write] at h
  rw [if_neg hb] at h
  cases h

/-- Any successful `write` performs exactly one counter increment when
`add_counter` is set and none otherwise — independently of whether it was
simple or multipart and of how many parts were uploaded. -/
theorem write_counterDelta (args : LoadTesterArgs) (index bl : Nat) (a : Bool) (r : TaskResult)
    (h : write args index bl a = some r) : r.counterDelta = if a then 1 else 0 := by
  have hbound := write_bound args index bl a r h
  by_cases hm : args.multipart_threshold < args.size
  · rw [write_multipart args index bl a hm hbound] at h
    rcases hc : chunks args.size args.multipart_threshold
        LoadTesterArgs.minimal_multipart_threshold with _ | cs
    · rw [hc, Option.none_bind] at h
      cases h
    · rw [hc, Option.some_bind] at h
      split at h
      · cases h
        rfl
      · cases h
  · rw [write_simple args index bl a (by omega) hbound] at h
    cases h
    rfl

/-- C7: whenever a write completes, it used multipart upload exactly when
the payload length is strictly greater than `multipart_threshold`; at or
below the threshold it is the simple single put. -/
theorem C7_strict_threshold :
    ∀ (args : LoadTesterArgs) (index bl : Nat) (a : Bool) (r : TaskResult),
      write args index bl a = some r →
      (S3Op.initiateMultipart (get_s3_path index) ∈ r.ops
        ↔ args.multipart_threshold < args.size) := by
  intro args index bl a r h
  have hbound := write_bound args index bl a r h
  by_cases hm : args.multipart_threshold < args.size
  · rw [write_multipart args index bl a hm hbound] at h
    rcases hc : chunks args.size args.multipart_threshold
        LoadTesterArgs.minimal_multipart_threshold with _ | cs
    · rw [hc, Option.none_bind] at h
      cases h
    · rw [hc, Option.some_bind] at h
      split at h
      · cases h
        exact iff_of_true (List.mem_cons_self _ _) hm
      · cases h
  · rw [write_simple args index bl a (by omega) hbound] at h
    cases h
    exact iff_of_false (by simp) hm

/-- Witness for C7: a payload exactly at the threshold (size =
threshold = 8,000,000) performs no `initiate_multipart_upload`. -/
theorem C7_strict_threshold_witness :
    S3Op.initiateMultipart (get_s3_path 0) ∉
      ({ ops := [S3Op.putSimple (get_s3_path 0) (0, 8000000)],
         counterDelta := 1 } : TaskResult).ops := by
  intro hmem
  have h := (C7_strict_threshold
      { count := none, multipart_threshold := 8000000, size := 8000000, step := 64 }
      0 8000064 true
      { ops := [S3Op.putSimple (get_s3_path 0) (0, 8000000)], counterDelta := 1 }
      rfl).mp hmem
  exact absurd h (by decide)

/-- Counter accounting for a fold of writes (as in `init_read`): a
successful fold starts from a successful accumulator and adds one
increment per element exactly when `add_counter` is set. -/
theorem foldl_write_acc (args : LoadTesterArgs) (bl : Nat) (a : Bool) :
    ∀ (l : List Nat) (acc : Option TaskResult) (r : TaskResult),
      l.foldl (fun acc index => acc.bind fun r1 =>
          (write args index bl a).map r1.append) acc = some r →
      ∃ r0, acc = some r0 ∧
        r.counterDelta = r0.counterDelta + (if a then l.length else 0) := by
  intro l
  induction l with
  | nil =>
    intro acc r h
    refine ⟨r, h, ?_⟩
    cases a <;> simp
  | cons x xs ih =>
    intro acc r h
    rw [List.foldl_cons] at h
    obtain ⟨r1, hr1, hd⟩ := ih _ r h
    rcases acc with _ | r0
    · rw [Option.none_bind] at hr1
      cases hr1
    · rcases hw : write args x bl a with _ | w
      · rw [Option.some_bind, hw, Option.map_none'] at hr1
        cases hr1
      · rw [Option.some_bind, hw, Option.map_some'] at hr1
        cases hr1
        refine ⟨r0, rfl, ?_⟩
        have hwd := write_counterDelta args x bl a w hw
        simp only [TaskResult.append] at hd
        rw [hd, hwd]
        cases a
        all_goals simp
        all_goals omega

/-- C6: each successful logical operation increments the shared counter
exactly once — a read once, a write (simple or multipart, regardless of
the number of parts) once, and the `init_read` pre-population writes not
at all. -/
theorem C6_counter_once :
    (∀ (args : LoadTesterArgs) (index : Nat), (read args index true).counterDelta = 1) ∧
    (∀ (args : LoadTesterArgs) (index bl : Nat) (r : TaskResult),
      write args index bl true = some r → r.counterDelta = 1) ∧
    (∀ (args : LoadTesterArgs) (bl : Nat) (r : TaskResult),
      initRead args bl = some r → r.counterDelta = 0) := by
  refine ⟨fun args index => rfl, ?_, ?_⟩
  · intro args index bl r h
    rw [write_counterDelta args index bl true r h]
    rfl
  · intro args bl r h
    unfold initRead at h
    obtain ⟨r0, hr0, hd⟩ := foldl_write_acc args bl false (List.range args.step)
      (some { ops := [], counterDelta := 0 }) r h
    cases hr0
    simpa using hd

/-- Witness for C6: a read, a two-part multipart write (5,000,000-byte
threshold, 10,000,000-byte payload), and a four-write read-mode
initialization each hit the claimed counter delta. -/
theorem C6_counter_once_witness :
    (read { count := none, multipart_threshold := 8000000, size := 4000000, step := 64 }
      0 true).counterDelta = 1 ∧
    ({ ops := [S3Op.initiateMultipart (get_s3_path 0),
         S3Op.putPart (get_s3_path 0) 1 (0, 5000000),
         S3Op.putPart (get_s3_path 0) 2 (5000000, 10000000),
         S3Op.completeMultipart (get_s3_path 0) 2],
       counterDelta := 1 } : TaskResult).counterDelta = 1 ∧
    ({ ops := [S3Op.putSimple (get_s3_path 0) (0, 4),
         S3Op.putSimple (get_s3_path 1) (0, 4),
         S3Op.putSimple (get_s3_path 2) (0, 4),
         S3Op.putSimple (get_s3_path 3) (0, 4)],
       counterDelta := 0 } : TaskResult).counterDelta = 0 := by
  refine ⟨C6_counter_once.1 _ 0, ?_, ?_⟩
  · exact C6_counter_once.2.1
      { count := none, multipart_threshold := 5000000, size := 10000000, step := 64 }
      0 10000064 _ rfl
  · exact C6_counter_once.2.2
      { count := none, multipart_threshold := 8000000, size := 4, step := 4 }
      8 _ rfl

/-! ## Worker loop and the global count (claims C4, C10) -/

/-- The cursor list is empty once the cursor has reached `count`. -/
theorem workerCursors_nil (c s C : Nat) (h : C ≤ c) : workerCursors c s C = [] := by
  unfold workerCursors
  rw [show C - c = 0 by omega]
  rfl

/-- Any sufficient fuel computes the same cursor list. -/
theorem workerCursorsGo_fuel (s : Nat) (hs : 1 ≤ s) :
    ∀ (f1 f2 c C : Nat), C - c ≤ f1 → C - c ≤ f2 →
      workerCursorsGo f1 c s C = workerCursorsGo f2 c s C := by
  intro f1
  induction f1 with
  | zero =>
    intro f2 c C h1 _
    have hc : C ≤ c := by omega
    cases f2 with
    | zero => rfl
    | succ f2 => simp [workerCursorsGo, hc]
  | succ f1 ih =>
    intro f2 c C h1 h2
    by_cases hc : C ≤ c
    · cases f2 with
      | zero => simp [workerCursorsGo, hc]
      | succ f2 => simp [workerCursorsGo, hc]
    · cases f2 with
      | zero => omega
      | succ f2 =>
        simp only [workerCursorsGo, if_neg hc]
        congr 1
        exact ih f2 (c + s) C (by omega) (by omega)

/-- Unfolding of the cursor list below `count`. -/
theorem workerCursors_cons (c s C : Nat) (hs : 1 ≤ s) (hc : c < C) :
    workerCursors c s C = c :: workerCursors (c + s) s C := by
  unfold workerCursors
  rw [show C - c = (C - c - 1) + 1 by omega]
  simp only [workerCursorsGo, if_neg (show ¬ C ≤ c by omega)]
  congr 1
  exact workerCursorsGo_fuel s hs (C - c - 1) (C - (c + s)) (c + s) C (by omega) (le_refl _)

/-- Shifting cursor and count together preserves the number of
iterations. -/
theorem workerCursors_shift_length (s k : Nat) (hs : 1 ≤ s) (c C : Nat) :
    (workerCursors (c + k) s (C + k)).length = (workerCursors c s C).length := by
  by_cases hc : C ≤ c
  · rw [workerCursors_nil (c + k) s (C + k) (by omega), workerCursors_nil c s C hc]
  · rw [workerCursors_cons (c + k) s (C + k) hs (by omega),
      workerCursors_cons c s C hs (by omega)]
    simp only [List.length_cons]
    rw [show c + k + s = c + s + k by omega,
      workerCursors_shift_length s k hs (c + s) C]
termination_by C - c
decreasing_by omega

/-- The pool-wide iteration count: across `T` stride-`T` workers with
offsets `0, …, T-1`, the worker-loop cursor lists have exactly `C`
elements in total. -/
theorem sum_workerCursors_length (T : Nat) (hT : 1 ≤ T) :
    ∀ C, (∑ id in Finset.range T, (workerCursors id T C).length) = C := by
  intro C
  induction C using Nat.strong_induction_on with
  | _ C ih =>
    by_cases hC : C < T
    · have hlen : ∀ id, id < T → (workerCursors id T C).length = if id < C then 1 else 0 := by
        intro id _
        by_cases h : id < C
        · rw [workerCursors_cons _ _ _ hT h, workerCursors_nil _ _ _ (by omega)]
          simp [h]
        · rw [workerCursors_nil _ _ _ (by omega)]
          simp [h]
      rw [Finset.sum_congr rfl fun id hid => hlen id (Finset.mem_range.mp hid),
        Finset.sum_boole, Nat.cast_id,
        show (Finset.range T).filter (fun id => id < C) = Finset.range C by
          ext x
          simp only [Finset.mem_filter, Finset.mem_range]
          omega]
      exact Finset.card_range C
    · have hstep : ∀ id, id < T →
          (workerCursors id T C).length = 1 + (workerCursors id T (C - T)).length := by
        intro id hid
        rw [workerCursors_cons _ _ _ hT (by omega)]
        simp only [List.length_cons]
        conv_lhs => rw [show C = C - T + T by omega]
        rw [workerCursors_shift_length T T hT id (C - T)]
        omega
      rw [Finset.sum_congr rfl fun id hid => hstep id (Finset.mem_range.mp hid),
        Finset.sum_add_distrib]
      simp only [Finset.sum_const, Finset.card_range, smul_eq_mul, mul_one]
      rw [ih (C - T) (by omega)]
      omega

/-- Bridging list sums over `List.range` with `Finset.range` sums. -/
theorem listSum_map_range (f : Nat → Nat) :
    ∀ n, ((List.range n).map f).sum = ∑ id in Finset.range n, f id := by
  intro n
  induction n with
  | zero => rfl
  | succ n ih =>
    rw [List.range_succ, List.map_append, List.sum_append, Finset.sum_range_succ, ih]
    simp

/-- Counter accounting for one Write-mode worker loop: a successful fold
adds exactly one increment per visited cursor (the `%`-reduction must
succeed and each write must succeed). -/
theorem foldl_task_acc (args : LoadTesterArgs) (bl : Nat) :
    ∀ (l : List Nat) (acc : Option TaskResult) (r : TaskResult),
      l.foldl (fun acc cursor => acc.bind fun r1 =>
          (natModChecked cursor args.step).bind fun index =>
            (write args index bl true).map r1.append) acc = some r →
      ∃ r0, acc = some r0 ∧ r.counterDelta = r0.counterDelta + l.length := by
  intro l
  induction l with
  | nil =>
    intro acc r h
    exact ⟨r, h, by simp⟩
  | cons x xs ih =>
    intro acc r h
    rw [List.foldl_cons] at h
    obtain ⟨r1, hr1, hd⟩ := ih _ r h
    rcases acc with _ | r0
    · rw [Option.none_bind] at hr1
      cases hr1
    · rcases hmod : natModChecked x args.step with _ | index
      · rw [Option.some_bind, hmod, Option.none_bind] at hr1
        cases hr1
      · rcases hw : write args index bl true with _ | w
        · rw [Option.some_bind, hmod, Option.some_bind, hw, Option.map_none'] at hr1
          cases hr1
        · rw [Option.some_bind, hmod, Option.some_bind, hw, Option.map_some'] at hr1
          cases hr1
          refine ⟨r0, rfl, ?_⟩
          have hwd := write_counterDelta args index bl true w hw
          simp only [if_pos] at hwd
          simp only [TaskResult.append] at hd
          rw [hd, hwd]
          simp only [List.length_cons]
          omega

/-- A Write-mode worker that completes its loop has incremented the
counter once per visited cursor. -/
theorem taskRunWrite_delta (args : LoadTesterArgs) (bl id stride C : Nat) (r : TaskResult)
    (h : taskRunWrite args bl id stride C = some r) :
    r.counterDelta = (workerCursors id stride C).length := by
  unfold taskRunWrite at h
  obtain ⟨r0, hr0, hd⟩ := foldl_task_acc args bl (workerCursors id stride C)
    (some { ops := [], counterDelta := 0 }) r h
  cases hr0
  simpa using hd

/-- Summing the per-worker counter deltas over the pool. -/
theorem foldl_pool_acc (args : LoadTesterArgs) (bl T C : Nat) :
    ∀ (l : List Nat) (acc : Option Nat) (total : Nat),
      l.foldl (fun acc id => acc.bind fun n =>
          (taskRunWrite args bl id T C).map fun r => n + r.counterDelta) acc = some total →
      ∃ n0, acc = some n0 ∧
        total = n0 + ((l.map fun id => (workerCursors id T C).length).sum) := by
  intro l
  induction l with
  | nil =>
    intro acc total h
    exact ⟨total, h, by simp⟩
  | cons x xs ih =>
    intro acc total h
    rw [List.foldl_cons] at h
    obtain ⟨n1, hn1, htot⟩ := ih _ total h
    rcases acc with _ | n0
    · rw [Option.none_bind] at hn1
      cases hn1
    · rcases htr : taskRunWrite args bl x T C with _ | r
      · rw [Option.some_bind, htr, Option.map_none'] at hn1
        cases hn1
      · rw [Option.some_bind, htr, Option.map_some'] at hn1
        cases hn1
        refine ⟨n0, rfl, ?_⟩
        rw [htot, taskRunWrite_delta args bl x T C r htr]
        simp only [List.map_cons, List.sum_cons]
        omega

/-- C4: with `count = C` and `thread_count = T ≥ 1`, a pool run in which
every worker completes performs exactly `C` counter increments in total,
and every visited cursor reduces to a key index below `step`. -/
theorem C4_global_count :
    ∀ (args : LoadTesterArgs) (bl T C total : Nat), 1 ≤ T →
      poolCounterTotal args bl T C = some total →
      total = C ∧ (∀ id s, 1 ≤ s → ∀ c ∈ workerCursors id T C, c % s < s) := by
  intro args bl T C total hT h
  constructor
  · unfold poolCounterTotal at h
    obtain ⟨n0, hn0, htot⟩ := foldl_pool_acc args bl T C (List.range T) (some 0) total h
    cases hn0
    rw [htot, listSum_map_range (fun id => (workerCursors id T C).length) T,
      sum_workerCursors_length T hT C]
    omega
  · intro id s hs c _
    exact Nat.mod_lt c (by omega)

/-- Witness for C4, scenario A of the spec: `mode = Write`, `count = 10`,
`step = 4`, `threads_max = 2` — the two workers' loops complete and the
shared counter records exactly 10 put operations. -/
theorem C4_global_count_witness :
    poolCounterTotal (⟨some 10, 8000000, 4000000, 4⟩ : LoadTesterArgs) 4000004 2 10
        = some 10 ∧
    (6 % 4 < 4) := by
  constructor
  · rfl
  · exact (C4_global_count (⟨some 10, 8000000, 4000000, 4⟩ : LoadTesterArgs)
      4000004 2 10 10 (by omega) rfl).2 0 4 (by omega) 6 (by decide)

/-- C10 counterexample: the argument layer imposes no lower bound on
`step`, and with the accepted configuration `step = 0` (and `count = 1`,
so the loop body runs once) the very first iteration's `ret % step` is a
division by zero — the loop panics, the error branch is reachable. -/
theorem C10_counterexample :
    natModChecked 0 0 = none ∧
    taskRunWrite (⟨some 1, 8000000, 4000000, 0⟩ : LoadTesterArgs) 4000000 0 1 1 = none :=
  ⟨rfl, rfl⟩

/-- C10 as amended: for every accepted configuration with `step ≥ 1`
(every configuration except `step = 0`), the worker-loop index reduction
`ret % step` never takes the division-by-zero branch and always yields a
key index below `step`. -/
theorem C10_mod_safe :
    ∀ (cursor step : Nat), 1 ≤ step →
      natModChecked cursor step = some (cursor % step) ∧ cursor % step < step := by
  intro cursor step hs
  refine ⟨?_, Nat.mod_lt cursor (by omega)⟩
  unfold natModChecked
  rw [if_neg (by omega)]

/-- Witness for the amended C10 at `cursor = 7`, `step = 4`. -/
theorem C10_mod_safe_witness : natModChecked 7 4 = some 3 ∧ 3 < 4 :=
  C10_mod_safe 7 4 (by omega)

/-! ## Session coordinator: joining and cleanup (claims C3, C9) -/

/-- When `try_collect` returns `Ok`, it has consumed — i.e. joined —
every worker result. -/
theorem tryCollectJoin_ok_joined :
    ∀ (l : List (Except String Unit)), (tryCollectJoin l).2 = Except.ok () →
      (tryCollectJoin l).1 = l.length := by
  intro l
  induction l with
  | nil => intro _; rfl
  | cons x xs ih =>
    intro h
    cases x with
    | error e => cases h
    | ok u =>
      simp only [tryCollectJoin] at h ⊢
      rw [ih h, List.length_cons]

/-- C3 counterexample: a run with `no_progress_bar` set (an accepted
configuration) executes the cleanup protocol zero times, not once — the
`no_progress_bar` branch of the coordinator returns `task_handler.await`
directly and never calls `cleanup`. -/
theorem C3_counterexample :
    (coordinate true [Except.ok ()] (Except.ok ())).cleanupRuns = 0 :=
  rfl

/-- C3 as amended: cleanup runs exactly once — and only after every
worker has been joined — when the progress bar is enabled and all worker
results are collected successfully; with `no_progress_bar` set, or when a
worker error short-circuits the collection, cleanup is not executed at
all. -/
theorem C3_cleanup :
    ∀ (workerResults : List (Except String Unit)) (cleanupResult : Except String Unit),
      (coordinate true workerResults cleanupResult).cleanupRuns = 0 ∧
      ((coordinate false workerResults cleanupResult).cleanupRuns = 1
        ↔ (tryCollectJoin workerResults).2 = Except.ok ()) ∧
      ((coordinate false workerResults cleanupResult).cleanupRuns = 1 →
        (coordinate false workerResults cleanupResult).joined = workerResults.length) := by
  intro wr cr
  refine ⟨rfl, ?_, ?_⟩
  · unfold coordinate
    rcases h2 : (tryCollectJoin wr).2 with e | u
    · simp [h2]
    · simp [h2]
  · intro h1
    rcases h2 : (tryCollectJoin wr).2 with e | u
    · simp [coordinate, h2] at h1
    · simp only [coordinate, h2]
      simp only [Bool.false_eq_true, if_false]
      exact tryCollectJoin_ok_joined wr (by rw [h2])

/-- Witness for the amended C3: with the progress bar enabled and one
successfully joined worker, cleanup runs once and the joined count is the
whole pool. -/
theorem C3_cleanup_witness :
    (coordinate false [Except.ok ()] (Except.ok ())).joined = 1 :=
  (C3_cleanup [Except.ok ()] (Except.ok ())).2.2 rfl

/-- C9 counterexample: with two workers whose completion order is
`[Err, Ok]`, the coordinator's `try_collect` short-circuits — it joins
only the one failed worker (`joined = 1`, not 2), drops the other
`JoinHandle`, and surfaces the error immediately. -/
theorem C9_counterexample :
    (coordinate false [Except.error "worker failed", Except.ok ()]
        (Except.ok ())).result = Except.error "worker failed" ∧
    (coordinate false [Except.error "worker failed", Except.ok ()]
        (Except.ok ())).joined = 1 :=
  ⟨rfl, rfl⟩

/-- C9 as amended: on the first worker error observed (in completion
order), the coordinator surfaces that error at once, having joined only
the workers that completed before it; the remaining worker tasks are
dropped (detached), not joined. -/
theorem C9_first_error :
    ∀ (pre post : List (Except String Unit)) (e : String),
      (∀ r ∈ pre, r = Except.ok ()) →
      tryCollectJoin (pre ++ Except.error e :: post) = (pre.length + 1, Except.error e) := by
  intro pre
  induction pre with
  | nil => intro post e _; rfl
  | cons x xs ih =>
    intro post e hpre
    have hx : x = Except.ok () := hpre x (List.mem_cons_self x xs)
    subst hx
    have ih' := ih post e fun r hr => hpre r (List.mem_cons_of_mem _ hr)
    simp only [List.cons_append, tryCollectJoin, List.append_eq, ih', List.length_cons]

/-- Witness for the amended C9: completion order `[Ok, Err, Ok]` joins
two workers (the clean one and the failed one) and surfaces the error,
leaving the third unjoined. -/
theorem C9_first_error_witness :
    tryCollectJoin [Except.ok (), Except.error "worker failed", Except.ok ()]
      = (2, Except.error "worker failed") :=
  C9_first_error [Except.ok ()] [Except.ok ()] "worker failed"
    (fun r hr => by rw [List.mem_singleton] at hr; exact hr)

/-! ## Initialization barrier (claims C2, C5) -/

/-- A main-loop operation event is never an initialization write. -/
theorem isInitEv_loopEv (mode : Mode) (v : Nat) : isInitEv (loopEv mode v) = false := by
  cases mode <;> rfl

/-- One step of any worker preserves the barrier invariant. -/
theorem inv_stepWorker (mode : Mode) (step : Nat) {n : Nat} (st : BSys n) (w : Fin n)
    (h : Inv mode step st) : Inv mode step (stepWorker mode step st w) := by
  rcases h with ⟨hb, hph, htr⟩ | ⟨hb, w0, k, hk, hw0, hoth, htr⟩ |
    ⟨hb, w0, hw0, hoth, rest, htr, hrest⟩
  · -- Pending: the stepped worker wins the compare-exchange
    have hw : st.phases w = WPhase.start := hph w
    simp only [stepWorker, hw, if_pos hb]
    refine Or.inr (Or.inl ⟨rfl, w, 0, Nat.zero_le _, ?_, ?_, ?_⟩)
    · simp [updPh]
    · intro v hv
      left
      simp only [updPh, if_neg hv]
      exact hph v
    · simpa using htr
  · -- Initializing: either the winner advances, or a loser steps
    by_cases hww : w = w0
    · subst hww
      simp only [stepWorker, hw0]
      by_cases hki : k < initSteps mode step
      · rw [if_pos hki]
        refine Or.inr (Or.inl ⟨hb, w, k + 1, by omega, ?_, ?_, ?_⟩)
        · simp [updPh]
        · intro v hv
          simp only [updPh, if_neg hv]
          exact hoth v hv
        · rw [htr, List.range_succ]
          simp
      · rw [if_neg hki]
        have hkeq : k = initSteps mode step := by omega
        refine Or.inr (Or.inr ⟨rfl, w, ?_, ?_, [], ?_, ?_⟩)
        · simp [updPh]
        · intro v hv
          simp only [updPh, if_neg hv]
          rcases hoth v hv with h1 | h1
          · exact Or.inl h1
          · exact Or.inr (Or.inl h1)
        · rw [hkeq] at htr
          rw [htr, List.append_nil]
        · intro e he
          cases he
    · rcases hoth w hww with hws | hws
      · have hcond : ¬ st.barrier = STATE_PENDING := by
          rw [hb]
          decide
        simp only [stepWorker, hws, if_neg hcond]
        refine Or.inr (Or.inl ⟨hb, w0, k, hk, ?_, ?_, htr⟩)
        · simp only [updPh, if_neg (show ¬ w0 = w from fun hx => hww hx.symm)]
          exact hw0
        · intro v hv
          by_cases hvw : v = w
          · subst hvw
            right
            simp [updPh]
          · simp only [updPh, if_neg hvw]
            exact hoth v hv
      · have hcond : ¬ st.barrier = STATE_READE := by
          rw [hb]
          decide
        simp only [stepWorker, hws, if_neg hcond]
        exact Or.inr (Or.inl ⟨hb, w0, k, hk, hw0, hoth, htr⟩)
  · -- Ready: the winner or a reader loops, waiters pass the barrier
    by_cases hww : w = w0
    · subst hww
      simp only [stepWorker, hw0]
      refine Or.inr (Or.inr ⟨hb, w, hw0, hoth, rest ++ [loopEv mode w.val], ?_, ?_⟩)
      · rw [htr, List.append_assoc]
      · intro e he
        rcases List.mem_append.mp he with he | he
        · exact hrest e he
        · rw [List.mem_singleton] at he
          subst he
          exact isInitEv_loopEv mode w.val
    · rcases hoth w hww with hws | hws | hws
      · have hcond : ¬ st.barrier = STATE_PENDING := by
          rw [hb]
          decide
        simp only [stepWorker, hws, if_neg hcond]
        refine Or.inr (Or.inr ⟨hb, w0, ?_, ?_, rest, htr, hrest⟩)
        · simp only [updPh, if_neg (show ¬ w0 = w from fun hx => hww hx.symm)]
          exact hw0
        · intro v hv
          by_cases hvw : v = w
          · subst hvw
            right
            left
            simp [updPh]
          · simp only [updPh, if_neg hvw]
            exact hoth v hv
      · simp only [stepWorker, hws, if_pos hb]
        refine Or.inr (Or.inr ⟨hb, w0, ?_, ?_, rest, htr, hrest⟩)
        · simp only [updPh, if_neg (show ¬ w0 = w from fun hx => hww hx.symm)]
          exact hw0
        · intro v hv
          by_cases hvw : v = w
          · subst hvw
            right
            right
            simp [updPh]
          · simp only [updPh, if_neg hvw]
            exact hoth v hv
      · simp only [stepWorker, hws]
        refine Or.inr (Or.inr ⟨hb, w0, hw0, ?_, rest ++ [loopEv mode w.val], ?_, ?_⟩)
        · intro v hv
          exact hoth v hv
        · rw [htr, List.append_assoc]
        · intro e he
          rcases List.mem_append.mp he with he | he
          · exact hrest e he
          · rw [List.mem_singleton] at he
            subst he
            exact isInitEv_loopEv mode w.val

/-- The barrier invariant holds in every reachable state, i.e. after any
schedule. -/
theorem inv_execSched (mode : Mode) (step : Nat) {n : Nat} (sched : List (Fin n)) :
    Inv mode step (execSched mode step sched) := by
  unfold execSched
  suffices h : ∀ (l : List (Fin n)) (st : BSys n), Inv mode step st →
      Inv mode step (l.foldl (stepWorker mode step) st) by
    exact h sched (initSys n) (Or.inl ⟨rfl, fun _ => rfl, rfl⟩)
  intro l
  induction l with
  | nil =>
    intro st hst
    exact hst
  | cons x xs ih =>
    intro st hst
    exact ih _ (inv_stepWorker mode step st x hst)

/-- A list of initialization writes filters to itself. -/
theorem filter_init_map_range (k : Nat) :
    ((List.range k).map Ev.initWrite).filter isInitEv = (List.range k).map Ev.initWrite :=
  List.filter_eq_self.mpr (fun e he => by
    rcases List.mem_map.mp he with ⟨i, _, rfl⟩
    rfl)

/-- A list without initialization writes filters to nothing. -/
theorem filter_init_none (rest : List Ev) (h : ∀ e ∈ rest, isInitEv e = false) :
    rest.filter isInitEv = [] := by
  rw [List.filter_eq_nil_iff]
  intro e he
  simp [h e he]

/-- No element of a pure initialization-write trace is a read. -/
theorem no_read_in_init_map (k i : Nat) (l : List Ev)
    (hl : l = (List.range k).map Ev.initWrite) (h : i < l.length) :
    isReadEv (l.get ⟨i, h⟩) = false := by
  subst hl
  have hmem := List.get_mem ((List.range k).map Ev.initWrite) i h
  rcases List.mem_map.mp hmem with ⟨idx, _, he⟩
  rw [← he]
  rfl

/-- In a trace that is all `step` initialization writes followed by
loop operations only, everything before any read filters to exactly the
`step` initialization writes. -/
theorem take_filter_append_init (step : Nat) (rest tr : List Ev)
    (htr : tr = (List.range step).map Ev.initWrite ++ rest)
    (hrest : ∀ e ∈ rest, isInitEv e = false)
    (i : Nat) (h : i < tr.length) (hread : isReadEv (tr.get ⟨i, h⟩) = true) :
    (tr.take i).filter isInitEv = (List.range step).map Ev.initWrite := by
  subst htr
  by_cases hi : i < ((List.range step).map Ev.initWrite).length
  · exfalso
    have hg : ((List.range step).map Ev.initWrite ++ rest).get ⟨i, h⟩
        = ((List.range step).map Ev.initWrite).get ⟨i, hi⟩ := by
      rw [List.get_eq_getElem, List.get_eq_getElem, List.getElem_append_left]
    rw [hg, no_read_in_init_map step i _ rfl hi] at hread
    cases hread
  · rw [List.take_append_eq_append_take,
      List.take_of_length_le (by omega), List.filter_append, filter_init_map_range,
      filter_init_none _ (fun e he => hrest e (List.mem_of_mem_take he)),
      List.append_nil]

/-- C5: in Read mode, under every interleaving of the workers: at most
one worker ever holds the initializer role (the compare-exchange winner);
the initialization writes present in the trace are always exactly the key
indices `0, …, k-1` in order for some `k ≤ step` (each written once,
never duplicated); and by the time any main-loop read is attempted, the
trace before it contains exactly all `step` initialization writes. -/
theorem C5_read_barrier :
    ∀ (n step : Nat) (sched : List (Fin n)),
      (∀ w w' : Fin n, isWinner ((execSched Mode.Read step sched).phases w) = true →
        isWinner ((execSched Mode.Read step sched).phases w') = true → w = w') ∧
      (∃ k, k ≤ step ∧
        (execSched Mode.Read step sched).trace.filter isInitEv
          = (List.range k).map Ev.initWrite) ∧
      (∀ (i : Nat) (h : i < (execSched Mode.Read step sched).trace.length),
        isReadEv ((execSched Mode.Read step sched).trace.get ⟨i, h⟩) = true →
          ((execSched Mode.Read step sched).trace.take i).filter isInitEv
            = (List.range step).map Ev.initWrite) := by
  intro n step sched
  have hinv := inv_execSched Mode.Read step sched
  rcases hinv with ⟨hb, hph, htr⟩ | ⟨hb, w0, k, hk, hw0, hoth, htr⟩ |
    ⟨hb, w0, hw0, hoth, rest, htr, hrest⟩
  · refine ⟨?_, ⟨0, Nat.zero_le _, by rw [htr]; rfl⟩, ?_⟩
    · intro w w' hw _
      rw [hph w] at hw
      exact absurd hw (by decide)
    · intro i h _
      rw [htr] at h
      exact absurd h (by simp)
  · have hks : k ≤ step := hk
    refine ⟨?_, ⟨k, hks, by rw [htr]; exact filter_init_map_range k⟩, ?_⟩
    · intro w w' hw hw'
      have hwa : w = w0 := by
        by_contra hne
        rcases hoth w hne with h1 | h1 <;> rw [h1] at hw <;> exact absurd hw (by decide)
      have hwb : w' = w0 := by
        by_contra hne
        rcases hoth w' hne with h1 | h1 <;> rw [h1] at hw' <;> exact absurd hw' (by decide)
      rw [hwa, hwb]
    · intro i h hread
      rw [no_read_in_init_map k i _ htr h] at hread
      cases hread
  · have hsteps : initSteps Mode.Read step = step := rfl
    rw [hsteps] at htr
    refine ⟨?_, ⟨step, le_refl step, ?_⟩, ?_⟩
    · intro w w' hw hw'
      have hwa : w = w0 := by
        by_contra hne
        rcases hoth w hne with h1 | h1 | h1 <;> rw [h1] at hw <;>
          exact absurd hw (by decide)
      have hwb : w' = w0 := by
        by_contra hne
        rcases hoth w' hne with h1 | h1 | h1 <;> rw [h1] at hw' <;>
          exact absurd hw' (by decide)
      rw [hwa, hwb]
    · rw [htr, List.filter_append, filter_init_map_range,
        filter_init_none rest hrest, List.append_nil]
    · intro i h hread
      exact take_filter_append_init step rest _ htr hrest i h hread

/-- Witness for C5, scenario B of the spec (`step = 4`, three workers):
a schedule in which worker 0 wins the barrier, performs the four
initialization writes, sets `Ready` and issues the first read — the four
writes all precede that read. -/
theorem C5_read_barrier_witness :
    ((execSched Mode.Read 4 (n := 3) [0, 0, 0, 0, 0, 0, 0]).trace.take 4).filter isInitEv
      = (List.range 4).map Ev.initWrite :=
  (C5_read_barrier 3 4 [0, 0, 0, 0, 0, 0, 0]).2.2 4 (by decide) (by decide)

/-- C2 counterexample: in Write mode the barrier is still exercised.
After one step of worker 0 the barrier has moved `Pending → Initializing`
(worker 0 won the compare-exchange, which the source executes regardless
of mode), and after worker 1's first step worker 1 is blocked in the
barrier's wait loop — contradicting both halves of the claim. -/
theorem C2_counterexample :
    (execSched Mode.Write 4 (n := 2) [0]).barrier = STATE_INIT ∧
    (execSched Mode.Write 4 (n := 2) [0, 1]).phases 1 = WPhase.wait :=
  ⟨rfl, rfl⟩

/-- C2 as amended: in Write mode the workers interact with the tri-state
barrier exactly as in Read mode — a unique compare-exchange winner, the
others waiting for `Ready` — the only mode difference being that the
winner's initialization performs no writes: the trace never contains an
initialization write, and no worker is in its operation loop before the
barrier is `Ready`. -/
theorem C2_write_barrier :
    ∀ (n step : Nat) (sched : List (Fin n)),
      (execSched Mode.Write step sched).trace.filter isInitEv = [] ∧
      (∀ w : Fin n, isRunPh ((execSched Mode.Write step sched).phases w) = true →
        (execSched Mode.Write step sched).barrier = STATE_READE) ∧
      (∀ w w' : Fin n, isWinner ((execSched Mode.Write step sched).phases w) = true →
        isWinner ((execSched Mode.Write step sched).phases w') = true → w = w') := by
  intro n step sched
  have hinv := inv_execSched Mode.Write step sched
  rcases hinv with ⟨hb, hph, htr⟩ | ⟨hb, w0, k, hk, hw0, hoth, htr⟩ |
    ⟨hb, w0, hw0, hoth, rest, htr, hrest⟩
  · refine ⟨by rw [htr]; rfl, ?_, ?_⟩
    · intro w hw
      rw [hph w] at hw
      exact absurd hw (by decide)
    · intro w w' hw _
      rw [hph w] at hw
      exact absurd hw (by decide)
  · have hk0 : k = 0 := by
      have h0 : initSteps Mode.Write step = 0 := rfl
      omega
    refine ⟨by rw [htr, hk0]; rfl, ?_, ?_⟩
    · intro w hw
      by_cases hne : w = w0
      · rw [hne, hw0] at hw
        exact absurd hw (by simp [isRunPh])
      · rcases hoth w hne with h1 | h1 <;> rw [h1] at hw <;> exact absurd hw (by decide)
    · intro w w' hw hw'
      have hwa : w = w0 := by
        by_contra hne
        rcases hoth w hne with h1 | h1 <;> rw [h1] at hw <;> exact absurd hw (by decide)
      have hwb : w' = w0 := by
        by_contra hne
        rcases hoth w' hne with h1 | h1 <;> rw [h1] at hw' <;> exact absurd hw' (by decide)
      rw [hwa, hwb]
  · have h0 : initSteps Mode.Write step = 0 := rfl
    rw [h0] at htr
    refine ⟨?_, fun _ _ => hb, ?_⟩
    · rw [htr]
      simp only [List.range_zero, List.map_nil, List.nil_append]
      exact filter_init_none rest hrest
    · intro w w' hw hw'
      have hwa : w = w0 := by
        by_contra hne
        rcases hoth w hne with h1 | h1 | h1 <;> rw [h1] at hw <;>
          exact absurd hw (by decide)
      have hwb : w' = w0 := by
        by_contra hne
        rcases hoth w' hne with h1 | h1 | h1 <;> rw [h1] at hw' <;>
          exact absurd hw' (by decide)
      rw [hwa, hwb]

/-- Witness for the amended C2: after two steps of worker 0 in Write
mode it is in its operation loop and the barrier is indeed `Ready`. -/
theorem C2_write_barrier_witness :
    isRunPh ((execSched Mode.Write 4 (n := 2) [0, 0]).phases 0) = true ∧
    (execSched Mode.Write 4 (n := 2) [0, 0]).barrier = STATE_READE :=
  ⟨rfl, (C2_write_barrier 2 4 [0, 0]).2.1 0 rfl⟩

end Sos
